import Mathlib

/-!
Verification of the protorand random protobuf message generator (rand.go).

The generator walks a protobuf message descriptor and produces a dynamic
message with random field values: per-kind dispatch for scalar, enum,
string and bytes values, one random member per oneof group, exactly one
element for repeated and map fields, and depth-bounded recursion into
nested message fields.

The embedding below mirrors rand.go.  Protobuf reflection
(`protoreflect`) is an external collaborator: descriptors are modelled as
plain data, with nested message types referenced through an indexed
schema environment so that self-referential and mutually recursive
schemas are representable.  The underlying uniform random bit generator
(Go's math/rand) is likewise external; it is modelled as a deterministic
stream of 64-bit draws, with `Int63`, `Int31` and `Uint32` derived from
that stream exactly as math/rand documents them (non-negative 63-bit
draws, and their high bits).
-/

namespace Protorand

/-- Model of the seedable random source (`rand.Rand`).  The underlying
uniform bit generator is external to the repository; it is modelled as a
deterministic stream of 64-bit values together with a position.  Every
draw advances the position by one. -/
structure Rand where
  stream : Nat → Nat
  idx : Nat

/-- One raw 64-bit draw of the underlying source, advancing the stream. -/
def Rand.next (r : Rand) : Nat × Rand :=
  (r.stream r.idx % 2 ^ 64, ⟨r.stream, r.idx + 1⟩)

/-- Models `rand.Rand.Uint64`: a full-range unsigned 64-bit draw. -/
def Rand.uint64 (r : Rand) : Nat × Rand :=
  r.next

/-- Models `rand.Rand.Int63`: a non-negative 63-bit draw, i.e. the low 63
bits of one 64-bit draw.  Go documents it as "a non-negative pseudo-random
63-bit integer as an int64". -/
def Rand.int63 (r : Rand) : Int × Rand :=
  ((((r.next).1 % 2 ^ 63 : Nat) : Int), (r.next).2)

/-- Models `rand.Rand.Int31`: `int32(Int63() >> 32)`, a non-negative
31-bit draw.  Go documents it as "a non-negative pseudo-random 31-bit
integer as an int32". -/
def Rand.int31 (r : Rand) : Int × Rand :=
  ((((r.next).1 % 2 ^ 63 / 2 ^ 32 : Nat) : Int), (r.next).2)

/-- Models `rand.Rand.Uint32`: `uint32(Int63() >> 31)`. -/
def Rand.uint32 (r : Rand) : Nat × Rand :=
  ((r.next).1 % 2 ^ 63 / 2 ^ 31, (r.next).2)

/-- Modelled from the spec: `intn(n)` is the external source's uniform
integer in `[0, n)` (the repository calls `rand.Rand.Intn`, whose
rejection-sampling internals are external); one draw reduced modulo `n`,
which lies in `[0, n)` for `n > 0`. -/
def Rand.intn (r : Rand) (n : Nat) : Nat × Rand :=
  ((r.next).1 % n, (r.next).2)

/-- Models `rand.Rand.Float64`: `Int63` scaled into `[0, 1)`, as an exact
rational (floating-point rounding is external to the core). -/
def Rand.float64 (r : Rand) : ℚ × Rand :=
  (((((r.next).1 % 2 ^ 63 : Nat) : ℚ) / 2 ^ 63), (r.next).2)

/-- Models `rand.Rand.Float32`: `float32(Float64())`, one draw scaled into
`[0, 1)`. -/
def Rand.float32 (r : Rand) : ℚ × Rand :=
  r.float64

/-- Modelled from the spec: `rand.NewSource(seed)` reinitializes the
deterministic stream as a function of the seed alone (the concrete
generator algorithm is external; any deterministic function of the seed
models it).  Here a 64-bit linear-congruential mixture of seed and
position. -/
def seedStream (seed : Int) : Nat → Nat :=
  fun i => (6364136223846793005 * ((seed.emod (2 ^ 64)).toNat + i) + 1442695040888963407) % 2 ^ 64

/-- ProtoRand is a source of random values for protobuf fields
(struct `ProtoRand` with its `rand *rand.Rand` field). -/
structure ProtoRand where
  rand : Rand

/-- Models `ProtoRand.Seed`: replaces the generator state with a fresh
deterministic stream computed from the seed, discarding the prior state. -/
def ProtoRand.Seed (_ : ProtoRand) (seed : Int) : ProtoRand :=
  ⟨⟨seedStream seed, 0⟩⟩

/-- Models `randInt32`: `p.rand.Int31()`. -/
def randInt32 (r : Rand) : Int × Rand :=
  r.int31

/-- Models `randInt64`: `p.rand.Int63()`. -/
def randInt64 (r : Rand) : Int × Rand :=
  r.int63

/-- Models `randUint32`: `p.rand.Uint32()`. -/
def randUint32 (r : Rand) : Nat × Rand :=
  r.uint32

/-- Models `randUint64`: `p.rand.Uint64()`. -/
def randUint64 (r : Rand) : Nat × Rand :=
  r.uint64

/-- Models `randFloat32`: `p.rand.Float32()`. -/
def randFloat32 (r : Rand) : ℚ × Rand :=
  r.float32

/-- Models `randFloat64`: `p.rand.Float64()`. -/
def randFloat64 (r : Rand) : ℚ × Rand :=
  r.float64

/-- Chars is the set of characters used to generate random strings. -/
def Chars : List Char :=
  "abcdefghijklmnopqrstuvwxyzABCDEFGHIJKLMNOPQRSTUVWXYZ0123456789".toList

/-- The loop of `randString`: `n` remaining characters, each
`Chars[p.rand.Intn(len(Chars))]`. -/
def randStringAux : Nat → Rand → List Char × Rand
  | 0, r => ([], r)
  | n + 1, r =>
    let i := (r.intn Chars.length).1
    let r1 := (r.intn Chars.length).2
    let rest := randStringAux n r1
    (Chars.getD i 'a' :: rest.1, rest.2)

/-- Models `randString`: ten characters drawn uniformly from `Chars`. -/
def randString (r : Rand) : List Char × Rand :=
  randStringAux 10 r

/-- Models `randBytes`: `[]byte(p.randString())`; every character of
`Chars` is ASCII, so the bytes are the code points of the string. -/
def randBytes (r : Rand) : List Nat × Rand :=
  ((randString r).1.map Char.toNat, (randString r).2)

/-- Models `randBool`: `p.rand.Int31()%2 == 0`. -/
def randBool (r : Rand) : Bool × Rand :=
  (decide ((r.int31).1 % 2 = 0), (r.int31).2)

/-- Models `chooseEnumValueRandomly`: with at most one declared value the
result is the literal enum number 0 with no draw; otherwise the number of
the declared value at index `Intn(len - 1)`. -/
def chooseEnumValueRandomly (r : Rand) (values : List Int) : Int × Rand :=
  if values.length ≤ 1 then (0, r)
  else (values.getD ((r.intn (values.length - 1)).1) 0, (r.intn (values.length - 1)).2)

/-- The protobuf field value kinds (`protoreflect.Kind`).  `groupKind`
(proto2 groups) is the one kind the synthesis dispatch does not handle. -/
inductive Kind where
  | int32Kind
  | int64Kind
  | sint32Kind
  | sint64Kind
  | uint32Kind
  | uint64Kind
  | fixed32Kind
  | fixed64Kind
  | sfixed32Kind
  | sfixed64Kind
  | floatKind
  | doubleKind
  | stringKind
  | boolKind
  | enumKind
  | bytesKind
  | messageKind
  | groupKind
deriving DecidableEq, Repr

/-- Whether `getRandValue`'s switch has a case for the kind; only
`groupKind` falls through to the `default` error branch. -/
def hasDispatchEntry : Kind → Bool
  | Kind.groupKind => false
  | _ => true

/-- The part of a field descriptor that value synthesis consumes: the
kind, the declared enum value numbers (enum kind), and the index of the
referenced message type in the schema environment (message kind). -/
structure ValueDesc where
  kind : Kind
  enumValues : List Int
  messageType : Nat
deriving DecidableEq, Repr

/-- A field descriptor: field number, the value descriptor dispatched for
singular and repeated fields, cardinality flags, the key/value
descriptors for map fields, and the index of the containing oneof group
if any. -/
structure FieldDescriptor where
  number : Nat
  desc : ValueDesc
  isList : Bool
  isMap : Bool
  mapKey : ValueDesc
  mapValue : ValueDesc
  containingOneof : Option Nat
deriving DecidableEq, Repr

/-- A message descriptor: ordered field descriptors and the declared
oneof groups, each given by the field numbers of its members. -/
structure MessageDescriptor where
  fields : List FieldDescriptor
  oneofs : List (List Nat)
deriving DecidableEq, Repr

/-- The schema environment: message descriptors referenced by index, so
self-referential and mutually recursive schemas are representable. -/
abbrev Schema := List MessageDescriptor

/-- The empty message descriptor, used for out-of-environment references. -/
def emptyDescriptor : MessageDescriptor :=
  ⟨[], []⟩

/-- A generated protobuf value (`protoreflect.Value`): scalars, a message
as a field-number-to-value mapping, a list for repeated fields, and an
entry list for map fields. -/
inductive Value where
  | vint32 (i : Int)
  | vint64 (i : Int)
  | vuint32 (n : Nat)
  | vuint64 (n : Nat)
  | vfloat32 (q : ℚ)
  | vfloat64 (q : ℚ)
  | vstring (s : List Char)
  | vbool (b : Bool)
  | venum (n : Int)
  | vbytes (bs : List Nat)
  | vmsg (fields : List (Nat × Value))
  | vlist (elems : List Value)
  | vrmap (entries : List (Value × Value))

/-- A generated dynamic message: field number to populated value. -/
abbrev Msg := List (Nat × Value)

/-- How generation can fail to return a message: the
`UnsupportedFieldKind` error from `getRandValue`'s default branch, or the
runtime panic of an out-of-range list access (`Get(0)` on an empty oneof
member list). -/
inductive Failure where
  | unsupportedFieldKind (k : Kind)
  | panicIndexOutOfRange
deriving DecidableEq, Repr

/-- Models `chooseOneOfFieldRandomly`: a group with at most one member
returns member 0 without a draw — on an empty group this is an
out-of-bounds access, modelled as the panic failure; otherwise the member
at index `Intn(len)`.  Only the member's field number is consumed by the
caller, so members are represented by their numbers. -/
def chooseOneOfFieldRandomly (r : Rand) (oneOf : List Nat) : Except Failure (Nat × Rand) :=
  if oneOf.length ≤ 1 then
    match oneOf with
    | [] => Except.error Failure.panicIndexOutOfRange
    | n :: _ => Except.ok (n, r)
  else Except.ok (oneOf.getD ((r.intn oneOf.length).1) 0, (r.intn oneOf.length).2)

/-- Models `getRandValue`'s per-kind switch.  `recur` is the nested
message synthesis available at the current depth: `none` when the depth
budget is exhausted (an empty default instance is produced instead of
recursing), `some f` when recursion into the schema environment is
allowed. -/
def getRandValue (recur : Option (Nat → Rand → Except Failure (Msg × Rand)))
    (vd : ValueDesc) (r : Rand) : Except Failure (Value × Rand) :=
  match vd.kind with
  | Kind.int32Kind => Except.ok (Value.vint32 (randInt32 r).1, (randInt32 r).2)
  | Kind.int64Kind => Except.ok (Value.vint64 (randInt64 r).1, (randInt64 r).2)
  | Kind.sint32Kind => Except.ok (Value.vint32 (randInt32 r).1, (randInt32 r).2)
  | Kind.sint64Kind => Except.ok (Value.vint64 (randInt64 r).1, (randInt64 r).2)
  | Kind.uint32Kind => Except.ok (Value.vuint32 (randUint32 r).1, (randUint32 r).2)
  | Kind.uint64Kind => Except.ok (Value.vuint64 (randUint64 r).1, (randUint64 r).2)
  | Kind.fixed32Kind => Except.ok (Value.vuint32 (randUint32 r).1, (randUint32 r).2)
  | Kind.fixed64Kind => Except.ok (Value.vuint64 (randUint64 r).1, (randUint64 r).2)
  | Kind.sfixed32Kind => Except.ok (Value.vint32 (randInt32 r).1, (randInt32 r).2)
  | Kind.sfixed64Kind => Except.ok (Value.vint64 (randInt64 r).1, (randInt64 r).2)
  | Kind.floatKind => Except.ok (Value.vfloat32 (randFloat32 r).1, (randFloat32 r).2)
  | Kind.doubleKind => Except.ok (Value.vfloat64 (randFloat64 r).1, (randFloat64 r).2)
  | Kind.stringKind => Except.ok (Value.vstring (randString r).1, (randString r).2)
  | Kind.boolKind => Except.ok (Value.vbool (randBool r).1, (randBool r).2)
  | Kind.enumKind =>
    Except.ok (Value.venum (chooseEnumValueRandomly r vd.enumValues).1,
      (chooseEnumValueRandomly r vd.enumValues).2)
  | Kind.bytesKind => Except.ok (Value.vbytes (randBytes r).1, (randBytes r).2)
  | Kind.messageKind =>
    match recur with
    | some f =>
      match f vd.messageType r with
      | Except.error e => Except.error e
      | Except.ok (m, r1) => Except.ok (Value.vmsg m, r1)
    | none => Except.ok (Value.vmsg [], r)
  | Kind.groupKind => Except.error (Failure.unsupportedFieldKind Kind.groupKind)

/-- The advance selection loop of `newDynamicProtoRand`: one
`chooseOneOfFieldRandomly` call per declared oneof group, in declaration
order, recording the selected field number per group. -/
def chooseOneofsAux : List (List Nat) → List Nat → Rand → Except Failure (List Nat × Rand)
  | [], acc, r => Except.ok (acc, r)
  | g :: rest, acc, r =>
    match chooseOneOfFieldRandomly r g with
    | Except.error e => Except.error e
    | Except.ok (n, r1) => chooseOneofsAux rest (acc ++ [n]) r1

/-- Whether the field loop populates this field: fields outside any oneof
always; a oneof member only when it is the recorded selection of its
group (a missing record compares against 0, the zero value of Go's map
lookup). -/
def shouldPopulate (chosen : List Nat) (fd : FieldDescriptor) : Bool :=
  match fd.containingOneof with
  | none => true
  | some gi => chosen.getD gi 0 == fd.number

/-- The field loop of `newDynamicProtoRand`, parameterized by the value
synthesis `gv` at the current depth: skip unselected oneof members; a
repeated field gets a single-element list, a map field a single entry of
one key draw then one value draw, any other field one value. -/
def genFieldsAux (gv : ValueDesc → Rand → Except Failure (Value × Rand))
    (chosen : List Nat) : List FieldDescriptor → Msg → Rand → Except Failure (Msg × Rand)
  | [], acc, r => Except.ok (acc, r)
  | fd :: rest, acc, r =>
    if shouldPopulate chosen fd then
      if fd.isList then
        match gv fd.desc r with
        | Except.error e => Except.error e
        | Except.ok (v, r1) =>
          genFieldsAux gv chosen rest (acc ++ [(fd.number, Value.vlist [v])]) r1
      else if fd.isMap then
        match gv fd.mapKey r with
        | Except.error e => Except.error e
        | Except.ok (k, r1) =>
          match gv fd.mapValue r1 with
          | Except.error e => Except.error e
          | Except.ok (v, r2) =>
            genFieldsAux gv chosen rest (acc ++ [(fd.number, Value.vrmap [(k, v)])]) r2
      else
        match gv fd.desc r with
        | Except.error e => Except.error e
        | Except.ok (v, r1) =>
          genFieldsAux gv chosen rest (acc ++ [(fd.number, v)]) r1
    else genFieldsAux gv chosen rest acc r

/-- The body of `newDynamicProtoRand` at one depth, parameterized by the
value synthesis for its fields: select one member per oneof group in
advance, then run the field loop on an empty fresh message. -/
def genMsgAux (gv : ValueDesc → Rand → Except Failure (Value × Rand))
    (mds : MessageDescriptor) (r : Rand) : Except Failure (Msg × Rand) :=
  match chooseOneofsAux mds.oneofs [] r with
  | Except.error e => Except.error e
  | Except.ok (chosen, r1) => genFieldsAux gv chosen mds.fields [] r1

/-- Value synthesis with `allowedDepth` remaining: at depth 0 a nested
message field receives the default empty instance; at depth `d + 1` it
recurses into the schema environment with budget `d`. -/
def genValueD (schema : Schema) : Nat → ValueDesc → Rand → Except Failure (Value × Rand)
  | 0, vd, r => getRandValue none vd r
  | d + 1, vd, r =>
    getRandValue
      (some (fun idx r0 => genMsgAux (genValueD schema d) (schema.getD idx emptyDescriptor) r0))
      vd r

/-- Models `newDynamicProtoRand(mds, allowedDepth)` over the schema
environment. -/
def genMsgD (schema : Schema) (allowedDepth : Nat) (mds : MessageDescriptor)
    (r : Rand) : Except Failure (Msg × Rand) :=
  genMsgAux (genValueD schema allowedDepth) mds r

/-- MaxDepth is the maximum stack depth for recursion. -/
def MaxDepth : Nat := 16

/-- Models the method `newDynamicProtoRand` with the generator state
threaded explicitly. -/
def ProtoRand.newDynamicProtoRand (p : ProtoRand) (schema : Schema)
    (mds : MessageDescriptor) (allowedDepth : Nat) : Except Failure (Msg × Rand) :=
  genMsgD schema allowedDepth mds p.rand

/-- Models `NewDynamicProtoRand`: the public entry point, starting at the
`MaxDepth` budget. -/
def ProtoRand.NewDynamicProtoRand (p : ProtoRand) (schema : Schema)
    (mds : MessageDescriptor) : Except Failure (Msg × Rand) :=
  p.newDynamicProtoRand schema mds MaxDepth

/-- A well-formed schema environment: every declared oneof group of
every message is non-empty (a protoreflect invariant; §7 of the spec
leaves empty groups undefined). -/
def wfSchema (schema : Schema) : Prop :=
  ∀ md ∈ schema, ∀ g ∈ md.oneofs, g ≠ []

/-- Mirror of `getRandValue` that records only whether the dispatched
kind has an entry: it makes exactly the draws the generator makes and
returns the advanced state, or `none` exactly when the kind has no
dispatch entry (or, through `recur`, when a nested traversal reaches
one). -/
def reachVAux (recur : Option (Nat → Rand → Option Rand))
    (vd : ValueDesc) (r : Rand) : Option Rand :=
  match vd.kind with
  | Kind.int32Kind => some (randInt32 r).2
  | Kind.int64Kind => some (randInt64 r).2
  | Kind.sint32Kind => some (randInt32 r).2
  | Kind.sint64Kind => some (randInt64 r).2
  | Kind.uint32Kind => some (randUint32 r).2
  | Kind.uint64Kind => some (randUint64 r).2
  | Kind.fixed32Kind => some (randUint32 r).2
  | Kind.fixed64Kind => some (randUint64 r).2
  | Kind.sfixed32Kind => some (randInt32 r).2
  | Kind.sfixed64Kind => some (randInt64 r).2
  | Kind.floatKind => some (randFloat32 r).2
  | Kind.doubleKind => some (randFloat64 r).2
  | Kind.stringKind => some (randString r).2
  | Kind.boolKind => some (randBool r).2
  | Kind.enumKind => some (chooseEnumValueRandomly r vd.enumValues).2
  | Kind.bytesKind => some (randBytes r).2
  | Kind.messageKind =>
    match recur with
    | some f => f vd.messageType r
    | none => some r
  | Kind.groupKind => none

/-- Mirror of the field loop: traverses the same fields in the same
order with the same skips and draws, returning `none` exactly when some
reached field value kind has no dispatch entry. -/
def reachFieldsAux (rv : ValueDesc → Rand → Option Rand)
    (chosen : List Nat) : List FieldDescriptor → Rand → Option Rand
  | [], r => some r
  | fd :: rest, r =>
    if shouldPopulate chosen fd then
      if fd.isList then
        match rv fd.desc r with
        | none => none
        | some r1 => reachFieldsAux rv chosen rest r1
      else if fd.isMap then
        match rv fd.mapKey r with
        | none => none
        | some r1 =>
          match rv fd.mapValue r1 with
          | none => none
          | some r2 => reachFieldsAux rv chosen rest r2
      else
        match rv fd.desc r with
        | none => none
        | some r1 => reachFieldsAux rv chosen rest r1
    else reachFieldsAux rv chosen rest r

/-- Mirror of one message synthesis: the same oneof draws, then the
mirrored field loop. -/
def reachMsgAux (rv : ValueDesc → Rand → Option Rand)
    (mds : MessageDescriptor) (r : Rand) : Option Rand :=
  match chooseOneofsAux mds.oneofs [] r with
  | Except.error _ => none
  | Except.ok (chosen, r1) => reachFieldsAux rv chosen mds.fields r1

/-- Mirror of depth-indexed value synthesis. -/
def reachVD (schema : Schema) : Nat → ValueDesc → Rand → Option Rand
  | 0, vd, r => reachVAux none vd r
  | d + 1, vd, r =>
    reachVAux
      (some (fun idx r0 => reachMsgAux (reachVD schema d) (schema.getD idx emptyDescriptor) r0))
      vd r

/-- Mirror of the full traversal of `newDynamicProtoRand`: returns
`none` exactly when a field value kind with no dispatch entry is reached
during the traversal (including list element, map key and map value
kinds, and skipping unselected oneof members and beyond-budget nested
messages exactly as the generator does). -/
def reachMsgD (schema : Schema) (allowedDepth : Nat) (mds : MessageDescriptor)
    (r : Rand) : Option Rand :=
  reachMsgAux (reachVD schema allowedDepth) mds r

/-- Lockstep relation between a generation result and its mirror: a
successful generation corresponds to the mirror completing with the same
final state, a failed generation to the mirror reporting `none`. -/
def GenRel {α : Type} : Except Failure (α × Rand) → Option Rand → Prop
  | Except.ok (_, r1), o => o = some r1
  | Except.error _, o => o = none

/-- Every collection inside a generated value is a singleton: repeated
fields hold exactly one element and map fields exactly one entry, at
every nesting level. -/
inductive CollectionsOK : Value → Prop where
  | vint32 (i : Int) : CollectionsOK (Value.vint32 i)
  | vint64 (i : Int) : CollectionsOK (Value.vint64 i)
  | vuint32 (n : Nat) : CollectionsOK (Value.vuint32 n)
  | vuint64 (n : Nat) : CollectionsOK (Value.vuint64 n)
  | vfloat32 (q : ℚ) : CollectionsOK (Value.vfloat32 q)
  | vfloat64 (q : ℚ) : CollectionsOK (Value.vfloat64 q)
  | vstring (s : List Char) : CollectionsOK (Value.vstring s)
  | vbool (b : Bool) : CollectionsOK (Value.vbool b)
  | venum (n : Int) : CollectionsOK (Value.venum n)
  | vbytes (bs : List Nat) : CollectionsOK (Value.vbytes bs)
  | vmsg (fs : List (Nat × Value)) : (∀ q ∈ fs, CollectionsOK q.2) → CollectionsOK (Value.vmsg fs)
  | vlist (v : Value) : CollectionsOK v → CollectionsOK (Value.vlist [v])
  | vrmap (k v : Value) : CollectionsOK k → CollectionsOK v →
      CollectionsOK (Value.vrmap [(k, v)])

/-- Message-nesting bound: `ValB d v` bounds every chain of nested
message values inside `v` by `d` further levels.  A non-empty message
value requires one budget level for its fields; the empty default
instance is bounded at any budget. -/
inductive ValB : Nat → Value → Prop where
  | vint32 (d : Nat) (i : Int) : ValB d (Value.vint32 i)
  | vint64 (d : Nat) (i : Int) : ValB d (Value.vint64 i)
  | vuint32 (d : Nat) (n : Nat) : ValB d (Value.vuint32 n)
  | vuint64 (d : Nat) (n : Nat) : ValB d (Value.vuint64 n)
  | vfloat32 (d : Nat) (q : ℚ) : ValB d (Value.vfloat32 q)
  | vfloat64 (d : Nat) (q : ℚ) : ValB d (Value.vfloat64 q)
  | vstring (d : Nat) (s : List Char) : ValB d (Value.vstring s)
  | vbool (d : Nat) (b : Bool) : ValB d (Value.vbool b)
  | venum (d : Nat) (n : Int) : ValB d (Value.venum n)
  | vbytes (d : Nat) (bs : List Nat) : ValB d (Value.vbytes bs)
  | vlist (d : Nat) (vs : List Value) : (∀ v ∈ vs, ValB d v) → ValB d (Value.vlist vs)
  | vrmap (d : Nat) (es : List (Value × Value)) :
      (∀ q ∈ es, ValB d q.1) → (∀ q ∈ es, ValB d q.2) → ValB d (Value.vrmap es)
  | vmsg (d : Nat) (fs : List (Nat × Value)) :
      (∀ q ∈ fs, ValB d q.2) → ValB (d + 1) (Value.vmsg fs)
  | vmsgEmpty (d : Nat) : ValB d (Value.vmsg [])

/-- The generated message of a successful generation, the empty message
on failure. -/
def resultMsg (x : Except Failure (Msg × Rand)) : Msg :=
  match x with
  | Except.ok (m, _) => m
  | Except.error _ => []

/-- The generator state after a successful generation, a zero stream on
failure. -/
def resultRand (x : Except Failure (Msg × Rand)) : Rand :=
  match x with
  | Except.ok (_, r) => r
  | Except.error _ => ⟨fun _ => 0, 0⟩

/-- A concrete generator state used by the witnesses. -/
def wRand : Rand :=
  ⟨seedStream 42, 0⟩

/-- A concrete int32 value descriptor used by the witnesses. -/
def wInt : ValueDesc :=
  ⟨Kind.int32Kind, [], 0⟩

/-- A concrete descriptor with one repeated int32 field and one int32 map
field, used by the witnesses. -/
def wMsgColl : MessageDescriptor :=
  ⟨[⟨1, wInt, true, false, wInt, wInt, none⟩,
    ⟨2, ⟨Kind.messageKind, [], 0⟩, false, true, wInt, wInt, none⟩], []⟩

/-- A concrete self-referential descriptor (its message 0 has a singular
field of its own type), used by the witnesses. -/
def wMsgRec : MessageDescriptor :=
  ⟨[⟨1, ⟨Kind.messageKind, [], 0⟩, false, false, wInt, wInt, none⟩], []⟩

/-- A concrete descriptor with one oneof group of two int32 members,
used by the witnesses. -/
def wMsgOneof : MessageDescriptor :=
  ⟨[⟨1, wInt, false, false, wInt, wInt, some 0⟩,
    ⟨2, wInt, false, false, wInt, wInt, some 0⟩], [[1, 2]]⟩

/-- A concrete descriptor with one field of the unhandled group kind,
used by the witnesses. -/
def wMsgGroup : MessageDescriptor :=
  ⟨[⟨1, ⟨Kind.groupKind, [], 0⟩, false, false, wInt, wInt, none⟩], []⟩

/-! ## Helper lemmas -/

/-- A bounded access `getD i 0` with `i` in range is a member. -/
lemma getD_mem_of_lt {l : List Nat} {i : Nat} (h : i < l.length) : l.getD i 0 ∈ l := by
  rw [List.getD_eq_getElem?_getD, List.getElem?_eq_getElem h, Option.getD_some]
  exact List.getElem_mem h

/-- The modelled `Intn` draw lies in `[0, n)` for positive `n`. -/
lemma intn_lt (r : Rand) {n : Nat} (h : 0 < n) : (r.intn n).1 < n :=
  Nat.mod_lt _ h

/-- Oneof selection on a non-empty group succeeds with a member. -/
lemma chooseOneOf_ok_mem {r : Rand} {g : List Nat} {n : Nat} {r1 : Rand}
    (h : chooseOneOfFieldRandomly r g = Except.ok (n, r1)) : n ∈ g := by
  unfold chooseOneOfFieldRandomly at h
  by_cases hl : g.length ≤ 1
  · simp only [hl, if_true] at h
    match g, h with
    | m :: rest, h =>
      simp only [Except.ok.injEq, Prod.mk.injEq] at h
      exact h.1 ▸ List.mem_cons_self m rest
  · simp only [hl, if_false, Except.ok.injEq, Prod.mk.injEq] at h
    have hpos : 0 < g.length := by omega
    exact h.1 ▸ getD_mem_of_lt (intn_lt r hpos)

/-- Oneof selection on a non-empty group never fails. -/
lemma chooseOneOf_ne_error {r : Rand} {g : List Nat} (hg : g ≠ []) :
    ∃ n r1, chooseOneOfFieldRandomly r g = Except.ok (n, r1) := by
  unfold chooseOneOfFieldRandomly
  by_cases hl : g.length ≤ 1
  · simp only [hl, if_true]
    match g, hg with
    | m :: rest, _ => exact ⟨m, r, rfl⟩
  · simp only [hl, if_false]
    exact ⟨_, _, rfl⟩

/-! ## C1: depth-bounded recursion into nested message fields -/

/-- Claim C1: for a nested-message field, a remaining budget `d + 1 > 0`
recurses with budget `d`; a remaining budget of 0 assigns the default
empty instance of the nested type instead of recursing; and the public
entry point starts at budget `MaxDepth = 16`. -/
theorem claim_C1 (schema : Schema) (d : Nat) (vd : ValueDesc) (r : Rand)
    (p : ProtoRand) (mds : MessageDescriptor) :
    (vd.kind = Kind.messageKind →
      (∀ m r1, genMsgD schema d (schema.getD vd.messageType emptyDescriptor) r = Except.ok (m, r1) →
        genValueD schema (d + 1) vd r = Except.ok (Value.vmsg m, r1)) ∧
      (∀ e, genMsgD schema d (schema.getD vd.messageType emptyDescriptor) r = Except.error e →
        genValueD schema (d + 1) vd r = Except.error e)) ∧
    (vd.kind = Kind.messageKind →
      genValueD schema 0 vd r = Except.ok (Value.vmsg [], r)) ∧
    p.NewDynamicProtoRand schema mds = genMsgD schema MaxDepth mds p.rand ∧
    MaxDepth = 16 := by
  obtain ⟨k, evs, mt⟩ := vd
  refine ⟨fun hk => ?_, fun hk => ?_, rfl, rfl⟩
  · cases hk
    constructor
    · intro m r1 h
      rw [genMsgD] at h
      simp only [genValueD, getRandValue, h]
    · intro e h
      rw [genMsgD] at h
      simp only [genValueD, getRandValue, h]
  · cases hk
    simp only [genValueD, getRandValue]

/-- Witness for C1 at budget 0 and at budget 1 on a concrete
self-referential schema. -/
theorem claim_C1_witness :
    genValueD [MessageDescriptor.mk [] []] 0 ⟨Kind.messageKind, [], 0⟩ ⟨seedStream 7, 0⟩ =
      Except.ok (Value.vmsg [], ⟨seedStream 7, 0⟩) :=
  (claim_C1 [MessageDescriptor.mk [] []] 0 ⟨Kind.messageKind, [], 0⟩ ⟨seedStream 7, 0⟩
    ⟨⟨seedStream 7, 0⟩⟩ ⟨[], []⟩).2.1 rfl

/-! ## C3: enum selection excludes the final declared value -/

/-- Claim C3: for an enum with `N ≥ 2` declared values the selected index
is drawn from `[0, N-2]`, so the result is some `values[i]` with
`i + 1 < N` and in particular a member of `values.dropLast` — the final
declared value's slot is never selected. -/
theorem claim_C3 (r : Rand) (values : List Int) (h : 2 ≤ values.length) :
    ∃ i, i + 1 < values.length ∧
      (chooseEnumValueRandomly r values).1 = values.getD i 0 ∧
      (chooseEnumValueRandomly r values).1 ∈ values.dropLast := by
  have hnle : ¬ values.length ≤ 1 := by omega
  have hpos : 0 < values.length - 1 := by omega
  have hi : (r.intn (values.length - 1)).1 < values.length - 1 := intn_lt r hpos
  refine ⟨(r.intn (values.length - 1)).1, by omega, ?_, ?_⟩
  · simp [chooseEnumValueRandomly, hnle]
  · have hlt : (r.intn (values.length - 1)).1 < values.dropLast.length := by
      rw [List.length_dropLast]; omega
    have hlt2 : (r.intn (values.length - 1)).1 < values.length := by omega
    simp only [chooseEnumValueRandomly, hnle, if_false]
    rw [List.getD_eq_getElem?_getD, List.getElem?_eq_getElem hlt2, Option.getD_some,
      ← List.getElem_dropLast values _ hlt]
    exact List.getElem_mem hlt

/-- Witness for C3 on the three-value enum `{0, 1, 2}`. -/
theorem claim_C3_witness :
    2 ≤ ([0, 1, 2] : List Int).length ∧
    ∃ i, i + 1 < ([0, 1, 2] : List Int).length ∧
      (chooseEnumValueRandomly ⟨seedStream 42, 0⟩ [0, 1, 2]).1 = ([0, 1, 2] : List Int).getD i 0 ∧
      (chooseEnumValueRandomly ⟨seedStream 42, 0⟩ [0, 1, 2]).1 ∈ ([0, 1, 2] : List Int).dropLast :=
  ⟨by decide, claim_C3 ⟨seedStream 42, 0⟩ [0, 1, 2] (by decide)⟩

/-! ## C4: determinism under a fixed seed -/

/-- Claim C4: reseeding with the same seed and generating from the same
schema yields identical generated messages, independent of the
generators' prior states — generation is a pure function of the seeded
state and the schema.  (Serialization of equal messages is byte-identical;
the serializer itself is an external collaborator.) -/
theorem claim_C4 (p1 p2 : ProtoRand) (seed : Int) (schema : Schema)
    (mds : MessageDescriptor) :
    (p1.Seed seed).NewDynamicProtoRand schema mds =
      (p2.Seed seed).NewDynamicProtoRand schema mds := rfl

/-! ## C8: the int32/int64 draws are not full-range signed draws -/

/-- Counterexample to C8: the `int32()` draw backing the signed 32-bit
kinds can never produce a negative value (it models Go's `Int31`, a
non-negative 31-bit draw), refuting "full-range signed draws, including
negative values". -/
theorem claim_C8_counterexample : ¬ ∃ r : Rand, (randInt32 r).1 < 0 := by
  rintro ⟨r, hr⟩
  have h0 : (0 : Int) ≤ ((r.next).1 % 2 ^ 63 / 2 ^ 32 : Nat) := Int.ofNat_nonneg _
  simp only [randInt32, Rand.int31] at hr
  omega

/-- Amended C8: the `int32()` draw is a non-negative draw in
`[0, 2^31)` and the `int64()` draw a non-negative draw in `[0, 2^63)`;
every signed integer field kind of a given width (plain, zigzag, fixed)
is backed by the same draw of that width. -/
theorem claim_C8 (schema : Schema) (d : Nat) (r : Rand) (vd : ValueDesc) :
    (0 ≤ (randInt32 r).1 ∧ (randInt32 r).1 < 2 ^ 31) ∧
    (0 ≤ (randInt64 r).1 ∧ (randInt64 r).1 < 2 ^ 63) ∧
    (vd.kind = Kind.int32Kind ∨ vd.kind = Kind.sint32Kind ∨ vd.kind = Kind.sfixed32Kind →
      genValueD schema d vd r = Except.ok (Value.vint32 (randInt32 r).1, (randInt32 r).2)) ∧
    (vd.kind = Kind.int64Kind ∨ vd.kind = Kind.sint64Kind ∨ vd.kind = Kind.sfixed64Kind →
      genValueD schema d vd r = Except.ok (Value.vint64 (randInt64 r).1, (randInt64 r).2)) := by
  obtain ⟨k, evs, mt⟩ := vd
  have hm : (r.next).1 % 2 ^ 63 < 2 ^ 63 := Nat.mod_lt _ (by norm_num)
  refine ⟨⟨Int.ofNat_nonneg _, ?_⟩, ⟨Int.ofNat_nonneg _, ?_⟩, ?_, ?_⟩
  · simp only [randInt32, Rand.int31]
    have : (r.next).1 % 2 ^ 63 / 2 ^ 32 < 2 ^ 31 := by omega
    exact_mod_cast this
  · simp only [randInt64, Rand.int63]
    exact_mod_cast hm
  · rintro (hk | hk | hk) <;> cases hk <;> cases d <;>
      simp only [genValueD, getRandValue]
  · rintro (hk | hk | hk) <;> cases hk <;> cases d <;>
      simp only [genValueD, getRandValue]

/-- Witness for the amended C8 at a concrete state and the plain 32-bit
signed kind. -/
theorem claim_C8_witness :
    (0 ≤ (randInt32 ⟨seedStream 42, 0⟩).1 ∧ (randInt32 ⟨seedStream 42, 0⟩).1 < 2 ^ 31) ∧
    genValueD [] 16 ⟨Kind.int32Kind, [], 0⟩ ⟨seedStream 42, 0⟩ =
      Except.ok (Value.vint32 (randInt32 ⟨seedStream 42, 0⟩).1, (randInt32 ⟨seedStream 42, 0⟩).2) :=
  ⟨(claim_C8 [] 16 ⟨seedStream 42, 0⟩ ⟨Kind.int32Kind, [], 0⟩).1,
   (claim_C8 [] 16 ⟨seedStream 42, 0⟩ ⟨Kind.int32Kind, [], 0⟩).2.2.1 (Or.inl rfl)⟩

/-! ## C9: enums with at most one declared value -/

/-- Counterexample to C9: for an enum whose single declared value has
number 5, the generated enum number is the literal 0, not the first
declared value. -/
theorem claim_C9_counterexample :
    (chooseEnumValueRandomly ⟨seedStream 0, 0⟩ [(5 : Int)]).1 = 0 ∧
    ¬ (chooseEnumValueRandomly ⟨seedStream 0, 0⟩ [(5 : Int)]).1 = ([(5 : Int)] : List Int).getD 0 0 := by
  constructor
  · rfl
  · intro h
    simp [chooseEnumValueRandomly] at h

/-- Amended C9: for an enum with at most one declared value, selection
returns the literal enum number 0 — regardless of the declared values —
and consumes no random draw (the generator state is unchanged). -/
theorem claim_C9 (r : Rand) (values : List Int) (h : values.length ≤ 1) :
    chooseEnumValueRandomly r values = (0, r) := by
  simp [chooseEnumValueRandomly, h]

/-- Witness for the amended C9 on a one-value enum. -/
theorem claim_C9_witness :
    chooseEnumValueRandomly ⟨seedStream 0, 0⟩ [(5 : Int)] = (0, ⟨seedStream 0, 0⟩) :=
  claim_C9 ⟨seedStream 0, 0⟩ [(5 : Int)] (by decide)

/-! ## Shape of synthesized values -/

/-- Case analysis on a successful `getRandValue` call: the value is a
scalar of the dispatched kind, or the default empty nested instance when
no recursion is available, or the recursive synthesis of the referenced
message type. -/
lemma getRandValue_ok_cases (recur : Option (Nat → Rand → Except Failure (Msg × Rand)))
    (vd : ValueDesc) (r : Rand) (v : Value) (r1 : Rand)
    (h : getRandValue recur vd r = Except.ok (v, r1)) :
    (∃ i, v = Value.vint32 i) ∨ (∃ i, v = Value.vint64 i) ∨ (∃ n, v = Value.vuint32 n) ∨
    (∃ n, v = Value.vuint64 n) ∨ (∃ q, v = Value.vfloat32 q) ∨ (∃ q, v = Value.vfloat64 q) ∨
    (∃ s, v = Value.vstring s) ∨ (∃ b, v = Value.vbool b) ∨ (∃ n, v = Value.venum n) ∨
    (∃ bs, v = Value.vbytes bs) ∨
    (v = Value.vmsg [] ∧ recur = none) ∨
    (∃ f m r2, recur = some f ∧ f vd.messageType r = Except.ok (m, r2) ∧
      v = Value.vmsg m ∧ r1 = r2) := by
  obtain ⟨k, evs, mt⟩ := vd
  cases k <;> simp only [getRandValue, Except.ok.injEq, Prod.mk.injEq] at h
  case int32Kind => exact Or.inl ⟨_, h.1.symm⟩
  case int64Kind => exact Or.inr (Or.inl ⟨_, h.1.symm⟩)
  case sint32Kind => exact Or.inl ⟨_, h.1.symm⟩
  case sint64Kind => exact Or.inr (Or.inl ⟨_, h.1.symm⟩)
  case uint32Kind => exact Or.inr (Or.inr (Or.inl ⟨_, h.1.symm⟩))
  case uint64Kind => exact Or.inr (Or.inr (Or.inr (Or.inl ⟨_, h.1.symm⟩)))
  case fixed32Kind => exact Or.inr (Or.inr (Or.inl ⟨_, h.1.symm⟩))
  case fixed64Kind => exact Or.inr (Or.inr (Or.inr (Or.inl ⟨_, h.1.symm⟩)))
  case sfixed32Kind => exact Or.inl ⟨_, h.1.symm⟩
  case sfixed64Kind => exact Or.inr (Or.inl ⟨_, h.1.symm⟩)
  case floatKind =>
    exact Or.inr (Or.inr (Or.inr (Or.inr (Or.inl ⟨_, h.1.symm⟩))))
  case doubleKind =>
    exact Or.inr (Or.inr (Or.inr (Or.inr (Or.inr (Or.inl ⟨_, h.1.symm⟩)))))
  case stringKind =>
    exact Or.inr (Or.inr (Or.inr (Or.inr (Or.inr (Or.inr (Or.inl ⟨_, h.1.symm⟩))))))
  case boolKind =>
    exact Or.inr (Or.inr (Or.inr (Or.inr (Or.inr (Or.inr (Or.inr (Or.inl ⟨_, h.1.symm⟩)))))))
  case enumKind =>
    exact Or.inr (Or.inr (Or.inr (Or.inr (Or.inr (Or.inr (Or.inr (Or.inr
      (Or.inl ⟨_, h.1.symm⟩))))))))
  case bytesKind =>
    exact Or.inr (Or.inr (Or.inr (Or.inr (Or.inr (Or.inr (Or.inr (Or.inr (Or.inr
      (Or.inl ⟨_, h.1.symm⟩)))))))))
  case messageKind =>
    split at h
    next f =>
      split at h
      next e heq2 => cases h
      next m r2 heq2 =>
        simp only [Except.ok.injEq, Prod.mk.injEq] at h
        exact Or.inr (Or.inr (Or.inr (Or.inr (Or.inr (Or.inr (Or.inr (Or.inr (Or.inr
          (Or.inr (Or.inr ⟨f, m, r2, rfl, heq2, h.1.symm, h.2.symm⟩))))))))))
    next =>
      simp only [Except.ok.injEq, Prod.mk.injEq] at h
      exact Or.inr (Or.inr (Or.inr (Or.inr (Or.inr (Or.inr (Or.inr (Or.inr (Or.inr
        (Or.inr (Or.inl ⟨h.1.symm, rfl⟩))))))))))
  case groupKind => cases h

/-- Preservation of a value predicate through the field loop: if the
value synthesis only produces values satisfying `P`, and `P` is closed
under the singleton list and singleton map wrappers, then every value of
a successfully generated field list satisfies `P`. -/
lemma genFieldsAux_pred (P : Value → Prop)
    (gv : ValueDesc → Rand → Except Failure (Value × Rand))
    (hgv : ∀ vd r v r1, gv vd r = Except.ok (v, r1) → P v)
    (hlist : ∀ v, P v → P (Value.vlist [v]))
    (hmap : ∀ k v, P k → P v → P (Value.vrmap [(k, v)]))
    (chosen : List Nat) :
    ∀ (fields : List FieldDescriptor) (acc : Msg) (r : Rand) (m : Msg) (r1 : Rand),
      genFieldsAux gv chosen fields acc r = Except.ok (m, r1) →
      (∀ q ∈ acc, P q.2) → ∀ q ∈ m, P q.2 := by
  intro fields
  induction fields with
  | nil =>
    intro acc r m r1 h hacc
    simp only [genFieldsAux, Except.ok.injEq, Prod.mk.injEq] at h
    exact h.1 ▸ hacc
  | cons fd rest ih =>
    intro acc r m r1 h hacc
    by_cases hsp : shouldPopulate chosen fd = true
    · by_cases hl : fd.isList = true
      · simp only [genFieldsAux, hsp, hl, if_true] at h
        cases hg : gv fd.desc r with
        | error e => rw [hg] at h; cases h
        | ok p =>
          obtain ⟨v, r2⟩ := p
          rw [hg] at h
          refine ih _ _ _ _ h ?_
          intro q hq
          rcases List.mem_append.mp hq with hq | hq
          · exact hacc q hq
          · rw [List.mem_singleton.mp hq]
            exact hlist v (hgv _ _ _ _ hg)
      · by_cases hm : fd.isMap = true
        · simp only [genFieldsAux, hsp, hl, hm, if_true, if_false, Bool.false_eq_true] at h
          split at h
          next e heq => cases h
          next kv r2 heq =>
            split at h
            next e heq2 => cases h
            next vv r3 heq2 =>
              refine ih _ _ _ _ h ?_
              intro q hq
              rcases List.mem_append.mp hq with hq | hq
              · exact hacc q hq
              · rw [List.mem_singleton.mp hq]
                exact hmap kv vv (hgv _ _ _ _ heq) (hgv _ _ _ _ heq2)
        · simp only [genFieldsAux, hsp, hl, hm, if_true, if_false, Bool.false_eq_true] at h
          cases hg : gv fd.desc r with
          | error e => rw [hg] at h; cases h
          | ok p =>
            obtain ⟨v, r2⟩ := p
            rw [hg] at h
            refine ih _ _ _ _ h ?_
            intro q hq
            rcases List.mem_append.mp hq with hq | hq
            · exact hacc q hq
            · rw [List.mem_singleton.mp hq]
              exact hgv _ _ _ _ hg
    · simp only [genFieldsAux, hsp, if_false, Bool.false_eq_true] at h
      exact ih _ _ _ _ h hacc

/-- Preservation of a value predicate through one message synthesis. -/
lemma genMsgAux_pred (P : Value → Prop)
    (gv : ValueDesc → Rand → Except Failure (Value × Rand))
    (hgv : ∀ vd r v r1, gv vd r = Except.ok (v, r1) → P v)
    (hlist : ∀ v, P v → P (Value.vlist [v]))
    (hmap : ∀ k v, P k → P v → P (Value.vrmap [(k, v)]))
    (mds : MessageDescriptor) (r : Rand) (m : Msg) (r1 : Rand)
    (h : genMsgAux gv mds r = Except.ok (m, r1)) : ∀ q ∈ m, P q.2 := by
  unfold genMsgAux at h
  cases hco : chooseOneofsAux mds.oneofs [] r with
  | error e => rw [hco] at h; cases h
  | ok p =>
    obtain ⟨chosen, r2⟩ := p
    rw [hco] at h
    exact genFieldsAux_pred P gv hgv hlist hmap chosen mds.fields [] r2 m r1 h
      (fun q hq => absurd hq (List.not_mem_nil q))

/-- Every value produced by depth-indexed value synthesis has singleton
collections throughout. -/
lemma genValueD_collectionsOK (schema : Schema) :
    ∀ (d : Nat) (vd : ValueDesc) (r : Rand) (v : Value) (r1 : Rand),
      genValueD schema d vd r = Except.ok (v, r1) → CollectionsOK v := by
  intro d
  induction d with
  | zero =>
    intro vd r v r1 h
    rcases getRandValue_ok_cases none vd r v r1 h with
      ⟨i, rfl⟩ | ⟨i, rfl⟩ | ⟨n, rfl⟩ | ⟨n, rfl⟩ | ⟨q, rfl⟩ | ⟨q, rfl⟩ | ⟨s, rfl⟩ |
      ⟨b, rfl⟩ | ⟨n, rfl⟩ | ⟨bs, rfl⟩ | ⟨rfl, _⟩ | ⟨f, m, r2, hf, _, rfl, rfl⟩
    case _ => exact CollectionsOK.vint32 i
    case _ => exact CollectionsOK.vint64 i
    case _ => exact CollectionsOK.vuint32 n
    case _ => exact CollectionsOK.vuint64 n
    case _ => exact CollectionsOK.vfloat32 q
    case _ => exact CollectionsOK.vfloat64 q
    case _ => exact CollectionsOK.vstring s
    case _ => exact CollectionsOK.vbool b
    case _ => exact CollectionsOK.venum n
    case _ => exact CollectionsOK.vbytes bs
    case _ => exact CollectionsOK.vmsg [] (fun q hq => absurd hq (List.not_mem_nil q))
    case _ => cases hf
  | succ d ihd =>
    intro vd r v r1 h
    rcases getRandValue_ok_cases _ vd r v r1 h with
      ⟨i, rfl⟩ | ⟨i, rfl⟩ | ⟨n, rfl⟩ | ⟨n, rfl⟩ | ⟨q, rfl⟩ | ⟨q, rfl⟩ | ⟨s, rfl⟩ |
      ⟨b, rfl⟩ | ⟨n, rfl⟩ | ⟨bs, rfl⟩ | ⟨rfl, hf⟩ | ⟨f, m, r2, hf, hfa, rfl, -⟩
    case _ => exact CollectionsOK.vint32 i
    case _ => exact CollectionsOK.vint64 i
    case _ => exact CollectionsOK.vuint32 n
    case _ => exact CollectionsOK.vuint64 n
    case _ => exact CollectionsOK.vfloat32 q
    case _ => exact CollectionsOK.vfloat64 q
    case _ => exact CollectionsOK.vstring s
    case _ => exact CollectionsOK.vbool b
    case _ => exact CollectionsOK.venum n
    case _ => exact CollectionsOK.vbytes bs
    case _ => cases hf
    case _ =>
      cases Option.some.inj hf
      refine CollectionsOK.vmsg m ?_
      exact genMsgAux_pred CollectionsOK (genValueD schema d)
        (fun vd0 r0 v0 r10 h0 => ihd vd0 r0 v0 r10 h0)
        (fun v hv => CollectionsOK.vlist v hv)
        (fun k v hk hv => CollectionsOK.vrmap k v hk hv)
        (schema.getD vd.messageType emptyDescriptor) r m r2 hfa

/-- Every value produced by value synthesis at budget `d` has its nested
message chains bounded by `d`. -/
lemma genValueD_valB (schema : Schema) :
    ∀ (d : Nat) (vd : ValueDesc) (r : Rand) (v : Value) (r1 : Rand),
      genValueD schema d vd r = Except.ok (v, r1) → ValB d v := by
  intro d
  induction d with
  | zero =>
    intro vd r v r1 h
    rcases getRandValue_ok_cases none vd r v r1 h with
      ⟨i, rfl⟩ | ⟨i, rfl⟩ | ⟨n, rfl⟩ | ⟨n, rfl⟩ | ⟨q, rfl⟩ | ⟨q, rfl⟩ | ⟨s, rfl⟩ |
      ⟨b, rfl⟩ | ⟨n, rfl⟩ | ⟨bs, rfl⟩ | ⟨rfl, _⟩ | ⟨f, m, r2, hf, _, rfl, rfl⟩
    case _ => exact ValB.vint32 0 i
    case _ => exact ValB.vint64 0 i
    case _ => exact ValB.vuint32 0 n
    case _ => exact ValB.vuint64 0 n
    case _ => exact ValB.vfloat32 0 q
    case _ => exact ValB.vfloat64 0 q
    case _ => exact ValB.vstring 0 s
    case _ => exact ValB.vbool 0 b
    case _ => exact ValB.venum 0 n
    case _ => exact ValB.vbytes 0 bs
    case _ => exact ValB.vmsgEmpty 0
    case _ => cases hf
  | succ d ihd =>
    intro vd r v r1 h
    rcases getRandValue_ok_cases _ vd r v r1 h with
      ⟨i, rfl⟩ | ⟨i, rfl⟩ | ⟨n, rfl⟩ | ⟨n, rfl⟩ | ⟨q, rfl⟩ | ⟨q, rfl⟩ | ⟨s, rfl⟩ |
      ⟨b, rfl⟩ | ⟨n, rfl⟩ | ⟨bs, rfl⟩ | ⟨rfl, hf⟩ | ⟨f, m, r2, hf, hfa, rfl, -⟩
    case _ => exact ValB.vint32 (d + 1) i
    case _ => exact ValB.vint64 (d + 1) i
    case _ => exact ValB.vuint32 (d + 1) n
    case _ => exact ValB.vuint64 (d + 1) n
    case _ => exact ValB.vfloat32 (d + 1) q
    case _ => exact ValB.vfloat64 (d + 1) q
    case _ => exact ValB.vstring (d + 1) s
    case _ => exact ValB.vbool (d + 1) b
    case _ => exact ValB.venum (d + 1) n
    case _ => exact ValB.vbytes (d + 1) bs
    case _ => cases hf
    case _ =>
      cases Option.some.inj hf
      refine ValB.vmsg d m ?_
      exact genMsgAux_pred (ValB d) (genValueD schema d)
        (fun vd0 r0 v0 r10 h0 => ihd vd0 r0 v0 r10 h0)
        (fun v hv => ValB.vlist d [v] (by intro x hx; rw [List.mem_singleton.mp hx]; exact hv))
        (fun k v hk hv => ValB.vrmap d [(k, v)]
          (by intro x hx; rw [List.mem_singleton.mp hx]; exact hk)
          (by intro x hx; rw [List.mem_singleton.mp hx]; exact hv))
        (schema.getD vd.messageType emptyDescriptor) r m r2 hfa

/-! ## C6: repeated fields and map fields are singletons -/

/-- Inversion: a list value with singleton collections has length 1. -/
lemma CollectionsOK.list_length {v : Value} (h : CollectionsOK v) :
    ∀ vs, v = Value.vlist vs → vs.length = 1 := by
  intro vs hv
  cases hv
  cases h
  rfl

/-- Inversion: a map value with singleton collections has one entry. -/
lemma CollectionsOK.map_length {v : Value} (h : CollectionsOK v) :
    ∀ es, v = Value.vrmap es → es.length = 1 := by
  intro es hv
  cases hv
  cases h
  rfl

/-- Claim C6: in a successfully generated message, every repeated field
holds exactly one element and every map field exactly one entry, at
every nesting level (`CollectionsOK` permits only singleton `vlist` and
`vrmap` constructors). -/
theorem claim_C6 (schema : Schema) (d : Nat) (mds : MessageDescriptor) (r : Rand)
    (m : Msg) (r1 : Rand) (h : genMsgD schema d mds r = Except.ok (m, r1)) :
    ∀ q ∈ m, CollectionsOK q.2 ∧
      (∀ vs, q.2 = Value.vlist vs → vs.length = 1) ∧
      (∀ es, q.2 = Value.vrmap es → es.length = 1) := by
  have hall : ∀ q ∈ m, CollectionsOK q.2 := by
    refine genMsgAux_pred CollectionsOK (genValueD schema d) ?_ ?_ ?_ mds r m r1 h
    · exact fun vd0 r0 v0 r10 h0 => genValueD_collectionsOK schema d vd0 r0 v0 r10 h0
    · exact fun v hv => CollectionsOK.vlist v hv
    · exact fun k v hk hv => CollectionsOK.vrmap k v hk hv
  exact fun q hq => ⟨hall q hq, (hall q hq).list_length, (hall q hq).map_length⟩

/-- Witness for C6: the repeated int32 field of a concrete schema is
generated as a singleton list. -/
theorem claim_C6_witness :
    CollectionsOK ((resultMsg (genMsgD [] 16 wMsgColl wRand)).getD 0 (0, Value.vbool true)).2 :=
  (claim_C6 [] 16 wMsgColl wRand (resultMsg (genMsgD [] 16 wMsgColl wRand))
    (resultRand (genMsgD [] 16 wMsgColl wRand)) rfl _ (List.mem_cons_self _ _)).1

/-! ## C7: generation terminates, recursion strictly decreases the depth budget -/

/-- Claim C7: generation is a total function — every call returns a
result — and the mechanism is the strictly decreasing depth budget: a
successful generation at budget `d` has every nested-message chain
bounded by `d` levels (`ValB d`). -/
theorem claim_C7 (schema : Schema) (d : Nat) (mds : MessageDescriptor) (r : Rand) :
    (∃ res, genMsgD schema d mds r = res) ∧
    (∀ m r1, genMsgD schema d mds r = Except.ok (m, r1) → ∀ q ∈ m, ValB d q.2) := by
  refine ⟨⟨genMsgD schema d mds r, rfl⟩, ?_⟩
  intro m r1 h
  refine genMsgAux_pred (ValB d) (genValueD schema d) ?_ ?_ ?_ mds r m r1 h
  · exact fun vd0 r0 v0 r10 h0 => genValueD_valB schema d vd0 r0 v0 r10 h0
  · exact fun v hv => ValB.vlist d [v] (by intro x hx; rw [List.mem_singleton.mp hx]; exact hv)
  · exact fun k v hk hv => ValB.vrmap d [(k, v)]
      (by intro x hx; rw [List.mem_singleton.mp hx]; exact hk)
      (by intro x hx; rw [List.mem_singleton.mp hx]; exact hv)

/-- Witness for C7 on the concrete self-referential schema at the
default budget: generation returns a result, and its nested chain is
bounded. -/
theorem claim_C7_witness :
    (∃ res, genMsgD [wMsgRec] 16 wMsgRec wRand = res) ∧
    (∀ m r1, genMsgD [wMsgRec] 16 wMsgRec wRand = Except.ok (m, r1) →
      ∀ q ∈ m, ValB 16 q.2) :=
  claim_C7 [wMsgRec] 16 wMsgRec wRand

/-! ## C2: exactly one populated member per oneof group -/

/-- The advance oneof selection loop appends one selection per group,
each selection being a member of its group. -/
lemma chooseOneofsAux_ok_spec :
    ∀ (gs : List (List Nat)) (acc : List Nat) (r : Rand) (chosen : List Nat) (r1 : Rand),
      chooseOneofsAux gs acc r = Except.ok (chosen, r1) →
      ∃ tail, chosen = acc ++ tail ∧ tail.length = gs.length ∧
        ∀ i, i < gs.length → tail.getD i 0 ∈ gs.getD i [] := by
  intro gs
  induction gs with
  | nil =>
    intro acc r chosen r1 h
    simp only [chooseOneofsAux, Except.ok.injEq, Prod.mk.injEq] at h
    exact ⟨[], by rw [← h.1]; simp, rfl, fun i hi => absurd hi (Nat.not_lt_zero i)⟩
  | cons g rest ih =>
    intro acc r chosen r1 h
    simp only [chooseOneofsAux] at h
    cases hc : chooseOneOfFieldRandomly r g with
    | error e => rw [hc] at h; cases h
    | ok p =>
      obtain ⟨n, r2⟩ := p
      rw [hc] at h
      obtain ⟨tail, htl, hlen, hmem⟩ := ih (acc ++ [n]) r2 chosen r1 h
      refine ⟨n :: tail, by rw [htl]; simp, by simp [hlen], ?_⟩
      intro i hi
      cases i with
      | zero => simpa using chooseOneOf_ok_mem hc
      | succ j =>
        have hj : j < rest.length := by simpa using hi
        simpa using hmem j hj

/-- `shouldPopulate` for a oneof member compares the recorded selection
of its group against its own number. -/
lemma shouldPopulate_some {chosen : List Nat} {fd : FieldDescriptor} {gi : Nat}
    (h : fd.containingOneof = some gi) :
    shouldPopulate chosen fd = (chosen.getD gi 0 == fd.number) := by
  unfold shouldPopulate
  rw [h]

/-- `List.contains` decides membership for `Nat` lists. -/
lemma contains_eq_decide_mem (l : List Nat) (n : Nat) : l.contains n = decide (n ∈ l) :=
  List.elem_eq_mem n l

/-- The field loop appends exactly one entry, keyed by the field number,
for every field it populates, in declaration order. -/
lemma genFieldsAux_keys (gv : ValueDesc → Rand → Except Failure (Value × Rand))
    (chosen : List Nat) :
    ∀ (fields : List FieldDescriptor) (acc : Msg) (r : Rand) (m : Msg) (r1 : Rand),
      genFieldsAux gv chosen fields acc r = Except.ok (m, r1) →
      m.map Prod.fst = acc.map Prod.fst ++
        (fields.filter (fun fd => shouldPopulate chosen fd)).map FieldDescriptor.number := by
  intro fields
  induction fields with
  | nil =>
    intro acc r m r1 h
    simp only [genFieldsAux, Except.ok.injEq, Prod.mk.injEq] at h
    rw [← h.1]
    simp
  | cons fd rest ih =>
    intro acc r m r1 h
    by_cases hsp : shouldPopulate chosen fd = true
    · by_cases hl : fd.isList = true
      · simp only [genFieldsAux, hsp, hl, if_true] at h
        split at h
        next e heq => cases h
        next v r2 heq =>
          rw [ih _ _ _ _ h]
          simp [List.filter_cons, hsp]
      · by_cases hm : fd.isMap = true
        · simp only [genFieldsAux, hsp, hl, hm, if_true, if_false, Bool.false_eq_true] at h
          split at h
          next e heq => cases h
          next kv r2 heq =>
            split at h
            next e heq2 => cases h
            next vv r3 heq2 =>
              rw [ih _ _ _ _ h]
              simp [List.filter_cons, hsp]
        · simp only [genFieldsAux, hsp, hl, hm, if_true, if_false, Bool.false_eq_true] at h
          split at h
          next e heq => cases h
          next v r2 heq =>
            rw [ih _ _ _ _ h]
            simp [List.filter_cons, hsp]
    · simp only [genFieldsAux, hsp, if_false, Bool.false_eq_true] at h
      rw [ih _ _ _ _ h]
      simp [List.filter_cons, hsp]

/-- Claim C2: in every successfully generated message, every non-empty
oneof group has exactly one populated member — never zero and never more
than one.  The hypotheses are the protoreflect descriptor invariants:
field numbers are unique, and a group's member list consists exactly of
the numbers of the fields that name it as their containing oneof. -/
theorem claim_C2 (schema : Schema) (d : Nat) (mds : MessageDescriptor) (r : Rand)
    (m : Msg) (r1 : Rand)
    (hok : genMsgD schema d mds r = Except.ok (m, r1))
    (hnum : (mds.fields.map FieldDescriptor.number).Nodup)
    (hcons : ∀ gi, gi < mds.oneofs.length →
      mds.oneofs.getD gi [] =
        (mds.fields.filter (fun fd => fd.containingOneof == some gi)).map
          FieldDescriptor.number) :
    ∀ gi, gi < mds.oneofs.length → mds.oneofs.getD gi [] ≠ [] →
      ((mds.oneofs.getD gi []).filter
        (fun n => (m.map Prod.fst).contains n)).length = 1 := by
  intro gi hgi _
  unfold genMsgD genMsgAux at hok
  cases hco : chooseOneofsAux mds.oneofs [] r with
  | error e => rw [hco] at hok; cases hok
  | ok p =>
    obtain ⟨chosen, r2⟩ := p
    rw [hco] at hok
    obtain ⟨tail, htl, hlen, hmem⟩ := chooseOneofsAux_ok_spec mds.oneofs [] r chosen r2 hco
    have hkeys := genFieldsAux_keys (genValueD schema d) chosen mds.fields [] r2 m r1 hok
    simp only [List.map_nil, List.nil_append] at hkeys
    have hchosen_mem : chosen.getD gi 0 ∈ mds.oneofs.getD gi [] := by
      rw [htl]
      simpa using hmem gi hgi
    have hgeq : mds.oneofs.getD gi [] =
        (mds.fields.filter (fun fd => fd.containingOneof == some gi)).map
          FieldDescriptor.number := hcons gi hgi
    have hpt : ∀ n ∈ mds.oneofs.getD gi [],
        (m.map Prod.fst).contains n = (n == chosen.getD gi 0) := by
      intro n hn
      rw [hgeq] at hn
      obtain ⟨fdn, hfdn_mem, hfdn_num⟩ := List.mem_map.mp hn
      obtain ⟨hfdn_fields, hfdn_oneof⟩ := List.mem_filter.mp hfdn_mem
      have hfdn_oneof2 : fdn.containingOneof = some gi := by
        simpa using hfdn_oneof
      by_cases hnc : n = chosen.getD gi 0
      · have hcn : chosen.getD gi 0 = fdn.number := by
          rw [hfdn_num]
          exact hnc.symm
        have hsp : shouldPopulate chosen fdn = true := by
          rw [shouldPopulate_some hfdn_oneof2, hcn, beq_self_eq_true]
        have hmem_keys : n ∈ m.map Prod.fst := by
          rw [hkeys]
          exact List.mem_map.mpr
            ⟨fdn, List.mem_filter.mpr ⟨hfdn_fields, by simpa using hsp⟩, hfdn_num⟩
        rw [← hnc, contains_eq_decide_mem, decide_eq_true hmem_keys, beq_self_eq_true]
      · have hnot : n ∉ m.map Prod.fst := by
          intro hmemk
          rw [hkeys] at hmemk
          obtain ⟨fdq, hfdq_mem, hfdq_num⟩ := List.mem_map.mp hmemk
          obtain ⟨hfdq_fields, hfdq_sp⟩ := List.mem_filter.mp hfdq_mem
          have heqfd : fdq = fdn :=
            List.inj_on_of_nodup_map hnum hfdq_fields hfdn_fields
              (by rw [hfdq_num, hfdn_num])
          rw [heqfd, shouldPopulate_some hfdn_oneof2] at hfdq_sp
          have hcn2 : chosen.getD gi 0 = fdn.number := by
            exact eq_of_beq hfdq_sp
          exact hnc (by rw [hfdn_num] at hcn2; exact hcn2.symm)
        rw [contains_eq_decide_mem, decide_eq_false hnot, beq_eq_false_iff_ne.mpr hnc]
    rw [List.filter_congr hpt]
    have hnodup_g : (mds.oneofs.getD gi []).Nodup := by
      rw [hgeq]
      exact List.Nodup.sublist
        (List.Sublist.map FieldDescriptor.number (List.filter_sublist mds.fields)) hnum
    have hle := List.nodup_iff_count_le_one.mp hnodup_g (chosen.getD gi 0)
    have hpos := List.count_pos_iff.mpr hchosen_mem
    have hcnt : ((mds.oneofs.getD gi []).filter
        (fun n => n == chosen.getD gi 0)).length =
        (mds.oneofs.getD gi []).count (chosen.getD gi 0) := by
      rw [List.count_eq_countP, List.countP_eq_length_filter]
    omega

/-- Witness for C2 on a concrete two-member oneof group: the generated
message populates exactly one of the two members. -/
theorem claim_C2_witness :
    ((wMsgOneof.oneofs.getD 0 []).filter
      (fun n => ((resultMsg (genMsgD [] 16 wMsgOneof wRand)).map Prod.fst).contains n)).length
      = 1 :=
  claim_C2 [] 16 wMsgOneof wRand (resultMsg (genMsgD [] 16 wMsgOneof wRand))
    (resultRand (genMsgD [] 16 wMsgOneof wRand)) rfl (by decide) (by decide)
    0 (by decide) (by decide)

/-! ## C10: empty oneof groups are an out-of-bounds access -/

/-- If some group in the list is empty, the advance oneof selection loop
aborts with the out-of-bounds panic. -/
lemma chooseOneofsAux_panic {gs : List (List Nat)} (h : [] ∈ gs) :
    ∀ acc r, chooseOneofsAux gs acc r = Except.error Failure.panicIndexOutOfRange := by
  induction gs with
  | nil => cases h
  | cons g rest ih =>
    intro acc r
    rcases List.mem_cons.mp h with hg | hg
    · cases hg.symm
      simp [chooseOneofsAux, chooseOneOfFieldRandomly]
    · by_cases hge : g = []
      · cases hge
        simp [chooseOneofsAux, chooseOneOfFieldRandomly]
      · obtain ⟨n, r1, hok⟩ := chooseOneOf_ne_error (r := r) hge
        simp only [chooseOneofsAux, hok]
        exact ih hg (acc ++ [n]) r1

/-- Claim C10: selecting from an empty oneof group is the out-of-bounds
access `Get(0)` on an empty member list, and generation for a schema
declaring an empty oneof group never returns normally with a generated
message. -/
theorem claim_C10 (schema : Schema) (d : Nat) (mds : MessageDescriptor) (r : Rand)
    (h : [] ∈ mds.oneofs) :
    chooseOneOfFieldRandomly r [] = Except.error Failure.panicIndexOutOfRange ∧
    genMsgD schema d mds r = Except.error Failure.panicIndexOutOfRange ∧
    ∀ m r1, genMsgD schema d mds r ≠ Except.ok (m, r1) := by
  have hgen : genMsgD schema d mds r = Except.error Failure.panicIndexOutOfRange := by
    unfold genMsgD genMsgAux
    rw [chooseOneofsAux_panic h [] r]
  exact ⟨rfl, hgen, fun m r1 hok => by rw [hgen] at hok; cases hok⟩

/-- Witness for C10 on a concrete descriptor declaring one empty oneof
group. -/
theorem claim_C10_witness :
    chooseOneOfFieldRandomly ⟨seedStream 3, 0⟩ [] = Except.error Failure.panicIndexOutOfRange ∧
    genMsgD [] 16 ⟨[], [[]]⟩ ⟨seedStream 3, 0⟩ = Except.error Failure.panicIndexOutOfRange ∧
    ∀ m r1, genMsgD [] 16 ⟨[], [[]]⟩ ⟨seedStream 3, 0⟩ ≠ Except.ok (m, r1) :=
  claim_C10 [] 16 ⟨[], [[]]⟩ ⟨seedStream 3, 0⟩ (by simp)

/-! ## C5: generation fails exactly on unsupported field kinds -/

/-- With every group non-empty, the advance oneof selection loop cannot
fail. -/
lemma chooseOneofsAux_ok_of_nonempty :
    ∀ (gs : List (List Nat)), (∀ g ∈ gs, g ≠ []) →
      ∀ (acc : List Nat) (r : Rand),
        ∃ chosen r1, chooseOneofsAux gs acc r = Except.ok (chosen, r1) := by
  intro gs
  induction gs with
  | nil => exact fun _ acc r => ⟨acc, r, rfl⟩
  | cons g rest ih =>
    intro hne acc r
    obtain ⟨n, r1, hok⟩ := chooseOneOf_ne_error (r := r) (hne g (List.mem_cons_self g rest))
    obtain ⟨chosen, r2, hrest⟩ :=
      ih (fun g hg => hne g (List.mem_cons_of_mem _ hg)) (acc ++ [n]) r1
    refine ⟨chosen, r2, ?_⟩
    simp only [chooseOneofsAux, hok]
    exact hrest

/-- In a well-formed schema every referenced descriptor — in range or
the empty default — has only non-empty oneof groups. -/
lemma wfSchema_getD {schema : Schema} (hwf : wfSchema schema) (idx : Nat) :
    ∀ g ∈ (schema.getD idx emptyDescriptor).oneofs, g ≠ [] := by
  by_cases hlt : idx < schema.length
  · have : schema.getD idx emptyDescriptor = schema[idx] := by
      rw [List.getD_eq_getElem?_getD, List.getElem?_eq_getElem hlt, Option.getD_some]
    rw [this]
    exact hwf schema[idx] (List.getElem_mem hlt)
  · have : schema.getD idx emptyDescriptor = emptyDescriptor := by
      rw [List.getD_eq_getElem?_getD, List.getElem?_eq_none (by omega), Option.getD_none]
    rw [this]
    exact fun g hg => absurd hg (List.not_mem_nil g)

/-- The mirror of the field loop stays in lockstep with the field loop:
same final state on success, `none` exactly on failure. -/
lemma lockstep_fields (gv : ValueDesc → Rand → Except Failure (Value × Rand))
    (rv : ValueDesc → Rand → Option Rand)
    (hrel : ∀ vd r, GenRel (gv vd r) (rv vd r)) (chosen : List Nat) :
    ∀ (fields : List FieldDescriptor) (acc : Msg) (r : Rand),
      GenRel (genFieldsAux gv chosen fields acc r) (reachFieldsAux rv chosen fields r) := by
  intro fields
  induction fields with
  | nil => intro acc r; exact rfl
  | cons fd rest ih =>
    intro acc r
    by_cases hsp : shouldPopulate chosen fd = true
    · by_cases hl : fd.isList = true
      · simp only [genFieldsAux, reachFieldsAux, hsp, hl, if_true]
        have h := hrel fd.desc r
        cases hg : gv fd.desc r with
        | error e =>
          rw [hg] at h
          rw [show rv fd.desc r = none from h]
          exact rfl
        | ok p =>
          obtain ⟨v, r2⟩ := p
          rw [hg] at h
          rw [show rv fd.desc r = some r2 from h]
          exact ih _ r2
      · by_cases hm : fd.isMap = true
        · have h := hrel fd.mapKey r
          cases hg : gv fd.mapKey r with
          | error e =>
            have hrv : rv fd.mapKey r = none := by rw [hg] at h; exact h
            simp only [genFieldsAux, reachFieldsAux, hsp, hl, hm, if_true, if_false,
              Bool.false_eq_true, hg, hrv]
            exact rfl
          | ok p =>
            obtain ⟨kv, r2⟩ := p
            have hrv : rv fd.mapKey r = some r2 := by rw [hg] at h; exact h
            have h2 := hrel fd.mapValue r2
            cases hg2 : gv fd.mapValue r2 with
            | error e =>
              have hrv2 : rv fd.mapValue r2 = none := by rw [hg2] at h2; exact h2
              simp only [genFieldsAux, reachFieldsAux, hsp, hl, hm, if_true, if_false,
                Bool.false_eq_true, hg, hrv, hg2, hrv2]
              exact rfl
            | ok p2 =>
              obtain ⟨vv, r3⟩ := p2
              have hrv2 : rv fd.mapValue r2 = some r3 := by rw [hg2] at h2; exact h2
              simp only [genFieldsAux, reachFieldsAux, hsp, hl, hm, if_true, if_false,
                Bool.false_eq_true, hg, hrv, hg2, hrv2]
              exact ih _ r3
        · simp only [genFieldsAux, reachFieldsAux, hsp, hl, hm, if_true, if_false,
            Bool.false_eq_true]
          have h := hrel fd.desc r
          cases hg : gv fd.desc r with
          | error e =>
            rw [hg] at h
            rw [show rv fd.desc r = none from h]
            exact rfl
          | ok p =>
            obtain ⟨v, r2⟩ := p
            rw [hg] at h
            rw [show rv fd.desc r = some r2 from h]
            exact ih _ r2
    · simp only [genFieldsAux, reachFieldsAux, hsp, if_false, Bool.false_eq_true]
      exact ih acc r

/-- The mirror of one message synthesis stays in lockstep with the
message synthesis, provided its oneof groups are non-empty. -/
lemma lockstep_msgAux (gv : ValueDesc → Rand → Except Failure (Value × Rand))
    (rv : ValueDesc → Rand → Option Rand)
    (hrel : ∀ vd r, GenRel (gv vd r) (rv vd r)) (mds : MessageDescriptor)
    (hne : ∀ g ∈ mds.oneofs, g ≠ []) (r : Rand) :
    GenRel (genMsgAux gv mds r) (reachMsgAux rv mds r) := by
  unfold genMsgAux reachMsgAux
  obtain ⟨chosen, r1, hco⟩ := chooseOneofsAux_ok_of_nonempty mds.oneofs hne [] r
  rw [hco]
  exact lockstep_fields gv rv hrel chosen mds.fields [] r1

/-- The mirror of value synthesis stays in lockstep with value synthesis
at every depth, for a well-formed schema. -/
lemma lockstep_valueD (schema : Schema) (hwf : wfSchema schema) :
    ∀ (d : Nat) (vd : ValueDesc) (r : Rand),
      GenRel (genValueD schema d vd r) (reachVD schema d vd r) := by
  intro d
  induction d with
  | zero =>
    intro vd r
    obtain ⟨k, evs, mt⟩ := vd
    cases k <;> exact rfl
  | succ d ih =>
    intro vd r
    obtain ⟨k, evs, mt⟩ := vd
    cases k
    case messageKind =>
      simp only [genValueD, reachVD, getRandValue, reachVAux]
      have h := lockstep_msgAux (genValueD schema d) (reachVD schema d) ih
        (schema.getD mt emptyDescriptor) (wfSchema_getD hwf mt) r
      cases hg : genMsgAux (genValueD schema d) (schema.getD mt emptyDescriptor) r with
      | error e =>
        rw [hg] at h
        rw [show reachMsgAux (reachVD schema d) (schema.getD mt emptyDescriptor) r = none
          from h]
        exact rfl
      | ok p =>
        obtain ⟨m, r2⟩ := p
        rw [hg] at h
        rw [show reachMsgAux (reachVD schema d) (schema.getD mt emptyDescriptor) r = some r2
          from h]
        exact rfl
    all_goals exact rfl

/-- Every error of the field loop comes from the value synthesis. -/
lemma errClass_fields (gv : ValueDesc → Rand → Except Failure (Value × Rand))
    (hgv : ∀ vd r e, gv vd r = Except.error e →
      ∃ k, hasDispatchEntry k = false ∧ e = Failure.unsupportedFieldKind k)
    (chosen : List Nat) :
    ∀ (fields : List FieldDescriptor) (acc : Msg) (r : Rand) (e : Failure),
      genFieldsAux gv chosen fields acc r = Except.error e →
      ∃ k, hasDispatchEntry k = false ∧ e = Failure.unsupportedFieldKind k := by
  intro fields
  induction fields with
  | nil => intro acc r e h; cases h
  | cons fd rest ih =>
    intro acc r e h
    by_cases hsp : shouldPopulate chosen fd = true
    · by_cases hl : fd.isList = true
      · simp only [genFieldsAux, hsp, hl, if_true] at h
        split at h
        next e2 heq => cases h; exact hgv _ _ _ heq
        next v r2 heq => exact ih _ _ _ h
      · by_cases hm : fd.isMap = true
        · simp only [genFieldsAux, hsp, hl, hm, if_true, if_false, Bool.false_eq_true] at h
          split at h
          next e2 heq => cases h; exact hgv _ _ _ heq
          next kv r2 heq =>
            split at h
            next e2 heq2 => cases h; exact hgv _ _ _ heq2
            next vv r3 heq2 => exact ih _ _ _ h
        · simp only [genFieldsAux, hsp, hl, hm, if_true, if_false, Bool.false_eq_true] at h
          split at h
          next e2 heq => cases h; exact hgv _ _ _ heq
          next v r2 heq => exact ih _ _ _ h
    · simp only [genFieldsAux, hsp, if_false, Bool.false_eq_true] at h
      exact ih _ _ _ h

/-- Every error of one message synthesis comes from the value synthesis,
provided its oneof groups are non-empty. -/
lemma errClass_msgAux (gv : ValueDesc → Rand → Except Failure (Value × Rand))
    (hgv : ∀ vd r e, gv vd r = Except.error e →
      ∃ k, hasDispatchEntry k = false ∧ e = Failure.unsupportedFieldKind k)
    (mds : MessageDescriptor) (hne : ∀ g ∈ mds.oneofs, g ≠ []) (r : Rand) (e : Failure)
    (h : genMsgAux gv mds r = Except.error e) :
    ∃ k, hasDispatchEntry k = false ∧ e = Failure.unsupportedFieldKind k := by
  unfold genMsgAux at h
  obtain ⟨chosen, r1, hco⟩ := chooseOneofsAux_ok_of_nonempty mds.oneofs hne [] r
  rw [hco] at h
  exact errClass_fields gv hgv chosen mds.fields [] r1 e h

/-- For a well-formed schema, every generation error is the
`UnsupportedFieldKind` error, carrying a kind with no dispatch entry. -/
lemma errClass_valueD (schema : Schema) (hwf : wfSchema schema) :
    ∀ (d : Nat) (vd : ValueDesc) (r : Rand) (e : Failure),
      genValueD schema d vd r = Except.error e →
      ∃ k, hasDispatchEntry k = false ∧ e = Failure.unsupportedFieldKind k := by
  intro d
  induction d with
  | zero =>
    intro vd r e h
    obtain ⟨k, evs, mt⟩ := vd
    cases k <;> (cases h; try exact ⟨Kind.groupKind, rfl, rfl⟩)
  | succ d ih =>
    intro vd r e h
    obtain ⟨k, evs, mt⟩ := vd
    cases k
    case messageKind =>
      simp only [genValueD, getRandValue] at h
      split at h
      next e2 heq =>
        cases h
        exact errClass_msgAux (genValueD schema d) ih
          (schema.getD mt emptyDescriptor) (wfSchema_getD hwf mt) r e heq
      next m r2 heq => cases h
    all_goals cases h <;> exact ⟨Kind.groupKind, rfl, rfl⟩

/-- Claim C5: for a well-formed schema (non-empty oneof groups, spec §7
leaves malformed ones undefined), generation fails exactly when the
traversal reaches a field value kind with no dispatch entry — `reachMsgD`
mirrors the traversal and reports exactly that — and every failure is the
`UnsupportedFieldKind` error carrying such a kind; the error return
carries no message, so no partial result is returned. -/
theorem claim_C5 (schema : Schema) (d : Nat) (mds : MessageDescriptor) (r : Rand)
    (hwf : wfSchema schema) (hne : ∀ g ∈ mds.oneofs, g ≠ []) :
    ((∃ e, genMsgD schema d mds r = Except.error e) ↔ reachMsgD schema d mds r = none) ∧
    ((∃ m r1, genMsgD schema d mds r = Except.ok (m, r1)) ↔ reachMsgD schema d mds r ≠ none) ∧
    (∀ e, genMsgD schema d mds r = Except.error e →
      ∃ k, hasDispatchEntry k = false ∧ e = Failure.unsupportedFieldKind k) := by
  have hrel : GenRel (genMsgD schema d mds r) (reachMsgD schema d mds r) :=
    lockstep_msgAux (genValueD schema d) (reachVD schema d)
      (lockstep_valueD schema hwf d) mds hne r
  refine ⟨⟨?_, ?_⟩, ⟨?_, ?_⟩, ?_⟩
  · rintro ⟨e, he⟩
    rw [he] at hrel
    exact hrel
  · intro hn
    cases hg : genMsgD schema d mds r with
    | error e => exact ⟨e, rfl⟩
    | ok p =>
      rw [hg] at hrel
      rw [show reachMsgD schema d mds r = some p.2 from hrel] at hn
      cases hn
  · rintro ⟨m, r1, hm⟩
    rw [hm] at hrel
    rw [show reachMsgD schema d mds r = some r1 from hrel]
    exact fun hc => Option.noConfusion hc
  · intro hn
    cases hg : genMsgD schema d mds r with
    | ok p =>
      obtain ⟨m, r1⟩ := p
      exact ⟨m, r1, rfl⟩
    | error e =>
      rw [hg] at hrel
      exact absurd hrel hn
  · intro e he
    exact errClass_msgAux (genValueD schema d) (fun vd r0 e0 =>
      errClass_valueD schema hwf d vd r0 e0) mds hne r e he

/-- Witness for C5 on a concrete schema containing a field of the
unhandled group kind: generation fails, the mirror reports the reach,
and the error is `UnsupportedFieldKind`. -/
theorem claim_C5_witness :
    ((∃ e, genMsgD [] 16 wMsgGroup wRand = Except.error e) ↔
      reachMsgD [] 16 wMsgGroup wRand = none) ∧
    ((∃ m r1, genMsgD [] 16 wMsgGroup wRand = Except.ok (m, r1)) ↔
      reachMsgD [] 16 wMsgGroup wRand ≠ none) ∧
    (∀ e, genMsgD [] 16 wMsgGroup wRand = Except.error e →
      ∃ k, hasDispatchEntry k = false ∧ e = Failure.unsupportedFieldKind k) :=
  claim_C5 [] 16 wMsgGroup wRand
    (fun md hmd => absurd hmd (List.not_mem_nil md))
    (fun g hg => absurd hg (List.not_mem_nil g))

end Protorand
